import Mathlib

/-!
Shallow embedding of the bubblesub background media-analysis pipeline,
covering the spectral work function (`bubblesub/ui/spectrogram.py`),
the timecode worker and video API (`bubblesub/api/media/video.py`),
and the frame-band worker (`bubblesub/ui/audio/video_preview.py`).

Sample values, which the source holds in numpy float arrays, are modelled
as rationals; the transcendental per-bin compression step (log, sqrt) and
the external FFT are abstracted as function parameters, while every
structural step (window alignment, channel averaging, format
normalization, scaling, clipping, bin reversal, byte cast) is embedded
concretely.
-/

namespace Spectrogram

/-- `DERIVATION_SIZE` constant from `bubblesub/ui/spectrogram.py`. -/
def DERIVATION_SIZE : Nat := 10

/-- `DERIVATION_DISTANCE` constant from `bubblesub/ui/spectrogram.py`. -/
def DERIVATION_DISTANCE : Nat := 6

/-- ffms2 sample-format constant `FFMS_FMT_U8`. -/
def FFMS_FMT_U8 : Nat := 0

/-- ffms2 sample-format constant `FFMS_FMT_S16`. -/
def FFMS_FMT_S16 : Nat := 1

/-- ffms2 sample-format constant `FFMS_FMT_S32`. -/
def FFMS_FMT_S32 : Nat := 2

/-- ffms2 sample-format constant `FFMS_FMT_FLT`. -/
def FFMS_FMT_FLT : Nat := 3

/-- ffms2 sample-format constant `FFMS_FMT_DBL`. -/
def FFMS_FMT_DBL : Nat := 4

/-- `np.mean(samples, axis=1)`: row-wise mean over channels. -/
def npMean (rows : List (List ℚ)) : List ℚ :=
  rows.map (fun r => r.sum / (r.length : ℚ))

/-- The audio side of the `api.media.audio` collaborator used by the work
function: a sample rate, an optional sample format, and
`get_samples(first_sample, count)` returning one row per sample, one entry
per channel. -/
structure AudioSource where
  sample_rate : Nat
  sample_format : Option Nat
  get_samples : Nat → Nat → List (List ℚ)

/-- The `pyfftw.FFTW` forward plan: an abstract transform from the input
buffer to `(1 <<< DERIVATION_SIZE) + 1` complex bins (the size of the
`_output` buffer allocated in `__init__`), each bin a (real, imaginary)
pair. -/
structure FftPlan where
  apply : List ℚ → List (ℚ × ℚ)
  output_len : ∀ xs, (apply xs).length = (1 <<< DERIVATION_SIZE) + 1

/-- `SpectrumProviderContext` state: the audio api, the FFT plan, the
per-bin log-compression `compress (re, im)` abstracting
`log(sqrt(re*re + im*im) * scale_factor + 1)` computed in floating point,
and the persistent `_input` buffer contents. -/
structure SpectrumProviderContext where
  api : AudioSource
  fftw : FftPlan
  compress : ℚ × ℚ → ℚ
  input : List ℚ

/-- Window alignment from `work`: `audio_frame = int(pts * sample_rate /
1000.0)` (truncating division, exact for the nonnegative integer inputs of
this pipeline), then `first_sample = (audio_frame >> DERIVATION_DISTANCE)
<< DERIVATION_DISTANCE`. -/
def first_sample (rate : Nat) (pts : Nat) : Nat :=
  let audio_frame := pts * rate / 1000
  (audio_frame >>> DERIVATION_DISTANCE) <<< DERIVATION_DISTANCE

/-- Numpy slice assignment `buf[0:len(xs)] = xs`: the first `xs.length`
entries are replaced, the tail is kept. -/
def writeSlice (buf xs : List ℚ) : List ℚ :=
  xs ++ buf.drop xs.length

/-- The sample-format normalization branch of `work` (spectrogram.py lines
42-47): signed 16-bit divides by 32768.0, signed 32-bit divides by
4294967296.0, float and double pass through, and any other format raises
`RuntimeError`. -/
def normalizeSamples (fmt : Nat) (samples : List ℚ) : Except String (List ℚ) :=
  if fmt = FFMS_FMT_S16 then
    Except.ok (samples.map (fun x => x / 32768))
  else if fmt = FFMS_FMT_S32 then
    Except.ok (samples.map (fun x => x / 4294967296))
  else if fmt = FFMS_FMT_FLT ∨ fmt = FFMS_FMT_DBL then
    Except.ok samples
  else
    Except.error ("Unknown sample format: " ++ toString fmt)

/-- Truncation toward zero of a rational, the behaviour of a C float-to-
integer cast (`Int.tdiv` truncates toward zero). -/
def truncQ (x : ℚ) : Int :=
  Int.tdiv x.num (x.den : Int)

/-- `np.uint8` cast of one array entry: truncation toward zero, wrapping
modulo 256. -/
def npUint8 (x : ℚ) : Nat :=
  (truncQ x).toNat % 256

/-- `np.clip(x, 0, 255)` on one entry. -/
def npClip (x : ℚ) : ℚ :=
  min 255 (max 0 x)

/-- `SpectrumProviderContext.work`. Returns either the `RuntimeError`
message or the `(pts, column)` result paired with the new `_input` buffer
contents (the buffer is a persistent member mutated by the slice
assignment). The steps mirror the source line by line: align the window,
read the samples, average the channels, branch on the sample format,
write the input buffer, transform, log-compress, scale by 255, clip,
reverse bin order, cast to `uint8`. -/
def work (ctx : SpectrumProviderContext) (pts : Nat) :
    Except String ((Nat × List Nat) × List ℚ) :=
  let fs := first_sample ctx.api.sample_rate pts
  let sample_count := 2 <<< DERIVATION_SIZE
  let rows := ctx.api.get_samples fs sample_count
  let samples := npMean rows
  match ctx.api.sample_format with
  | none => Except.ok ((pts, List.replicate ((1 <<< DERIVATION_SIZE) + 1) 0), ctx.input)
  | some fmt =>
    match normalizeSamples fmt samples with
    | Except.error e => Except.error e
    | Except.ok samples2 =>
      let input2 := writeSlice ctx.input samples2
      let out := ctx.fftw.apply input2
      let compressed := out.map ctx.compress
      let scaled := compressed.map (fun x => x * 255)
      let clipped := scaled.map npClip
      let flipped := clipped.reverse
      let bytes := flipped.map npUint8
      Except.ok ((pts, bytes), input2)

/-- The sample window `work` reads for a given pts: `get_samples(first_sample,
2 << DERIVATION_SIZE)`. -/
def samplesRead (ctx : SpectrumProviderContext) (pts : Nat) : List (List ℚ) :=
  ctx.api.get_samples (first_sample ctx.api.sample_rate pts) (2 <<< DERIVATION_SIZE)

end Spectrogram

namespace Video

/-- `TimecodesWorkerResult` from `bubblesub/api/media/video.py`: the video
path the result was computed for, the frame PTS list and the keyframe PTS
list. -/
structure TimecodesWorkerResult where
  path : String
  timecodes : List Int
  keyframes : List Int
deriving DecidableEq

/-- A log line emitted through the logging api. -/
inductive LogEntry where
  | info (msg : String)
  | error (msg : String)
deriving DecidableEq

/-- The external collaborators of `TimecodesWorker._do_work`: the persistent
cache (`bubblesub.cache.load_cache` keyed by name), `Path.exists`, the
`ffms.VideoSource` track data (timecodes and keyframes of a path), and
`bubblesub.util.hash_digest`. -/
structure WorkEnv where
  cache : String → Option (List Int × List Int)
  fileExists : String → Bool
  trackTimecodes : String → List Int
  trackKeyframes : String → List Int
  hashDigest : String → String

/-- The cache record name built in `_do_work`: the path hash wrapped in
the literal pieces `index-` and `-video`. -/
def cacheName (env : WorkEnv) (path : String) : String :=
  "index-" ++ env.hashDigest path ++ "-video"

/-- What one `_do_work` call produces: the optional result delivered to
`task_finished`, the cache contents afterwards, whether the decoder
(`ffms.VideoSource`) was invoked, and the emitted log lines in order. -/
structure WorkOutcome where
  result : Option TimecodesWorkerResult
  cache : String → Option (List Int × List Int)
  decoderInvoked : Bool
  log : List LogEntry

/-- `TimecodesWorker._do_work`: consult the cache under the path-hash key;
on a hit use the cached pair, on a miss return `None` if the file does not
exist, otherwise index the video source and save the extracted pair back
under the same key before returning it. -/
def do_work (env : WorkEnv) (path : String) : WorkOutcome :=
  let name := cacheName env path
  match env.cache name with
  | some (tc, kf) =>
    { result := some ⟨path, tc, kf⟩
      cache := env.cache
      decoderInvoked := false
      log := [LogEntry.info ("video/timecodes: loading... (" ++ path ++ ")"),
              LogEntry.info "video/timecodes: loaded"] }
  | none =>
    if env.fileExists path then
      let tc := env.trackTimecodes path
      let kf := env.trackKeyframes path
      { result := some ⟨path, tc, kf⟩
        cache := fun k => if k = name then some (tc, kf) else env.cache k
        decoderInvoked := true
        log := [LogEntry.info ("video/timecodes: loading... (" ++ path ++ ")"),
                LogEntry.info "video/timecodes: loaded"] }
    else
      { result := none
        cache := env.cache
        decoderInvoked := false
        log := [LogEntry.info ("video/timecodes: loading... (" ++ path ++ ")"),
                LogEntry.error "video/timecodes: video file not found"] }

/-- The `VideoApi` state relevant to timecode handling: the currently
loaded media path (`self._media_api.path`, `None` when nothing is loaded)
and the `_timecodes` / `_keyframes` lists. -/
structure VideoState where
  currentPath : Option String
  timecodes : List Int
  keyframes : List Int
deriving DecidableEq

/-- `VideoApi._got_timecodes`: the stored lists are replaced (and
`timecodes_updated` emitted, the returned Bool) only when the result is
present and its path equals the currently loaded media path; otherwise the
state is left untouched. -/
def got_timecodes (st : VideoState) (result : Option TimecodesWorkerResult) :
    VideoState × Bool :=
  match result with
  | some r =>
    if some r.path = st.currentPath then
      ({ st with timecodes := r.timecodes, keyframes := r.keyframes }, true)
    else
      (st, false)
  | none => (st, false)

/-- Events driving the `VideoApi` state: a media load (the media api path
changes and `_on_media_load` resets both lists before scheduling the
worker), or a timecode-worker completion delivered to `_got_timecodes`. -/
inductive VEvent where
  | load (path : Option String)
  | complete (result : Option TimecodesWorkerResult)

/-- One `VideoApi` state transition per event. -/
def vstep (st : VideoState) (e : VEvent) : VideoState :=
  match e with
  | VEvent.load p => { currentPath := p, timecodes := [], keyframes := [] }
  | VEvent.complete r => (got_timecodes st r).1

/-- Run a sequence of events. -/
def vrun (st : VideoState) (es : List VEvent) : VideoState :=
  es.foldl vstep st

/-- The completions delivered (with a present result) in an event list. -/
def completions (es : List VEvent) : List TimecodesWorkerResult :=
  es.filterMap (fun e =>
    match e with
    | VEvent.complete (some r) => some r
    | _ => none)

/-- `VideoApi.align_pts_to_next_frame` loop body: return the first timecode
that is `>= pts`, else fall through. -/
def alignLoop (pts : Int) : List Int → Int
  | [] => pts
  | t :: rest => if pts ≤ t then t else alignLoop pts rest

/-- `VideoApi.align_pts_to_next_frame`: guarded by `if self.timecodes:`,
then the linear scan for the first timecode `>= pts`, falling back to
`pts`. -/
def align_pts_to_next_frame (timecodes : List Int) (pts : Int) : Int :=
  if timecodes.isEmpty then pts else alignLoop pts timecodes

end Video

namespace VideoBand

/-- One decoded thumbnail strip: `_BAND_Y_RESOLUTION` RGB triples. -/
abbrev Frame := List (Nat × Nat × Nat)

/-- `_BAND_Y_RESOLUTION` constant from `bubblesub/ui/audio/video_preview.py`. -/
def BAND_Y_RESOLUTION : Nat := 30

/-- Python `dict` assignment `m[k] = v`: overwrite the entry when the key
is present, append a new entry otherwise. -/
def dictInsert (m : List (Nat × Frame)) (k : Nat) (v : Frame) : List (Nat × Frame) :=
  if (m.lookup k).isSome then
    m.map (fun p => if p.1 = k then (k, v) else p)
  else
    m ++ [(k, v)]

/-- Python `k in m` on a dict. -/
def dictHas (m : List (Nat × Frame)) (k : Nat) : Bool :=
  (m.lookup k).isSome

/-- `VideoBandWorker._on_video_parse`: walk the frame indices
`range(len(timecodes))` in order and put every index that is not a key of
the in-memory cache into the queue; indices already cached are skipped. -/
def on_video_parse (cache : List (Nat × Frame)) (queue : List Nat) (frameCount : Nat) :
    List Nat :=
  queue ++ (List.range frameCount).filter (fun i => ¬ dictHas cache i)

/-- The body of `VideoBandWorker.run` applied until the queue is empty:
each dequeued index is computed with `get_frame` (no membership check) and
inserted into the cache. Returns the final cache and the list of indices
that were actually computed, in order. -/
def drain (get_frame : Nat → Frame) :
    List Nat → List (Nat × Frame) → List (Nat × Frame) × List Nat
  | [], cache => (cache, [])
  | i :: rest, cache =>
    let frame := get_frame i
    let next := drain get_frame rest (dictInsert cache i frame)
    (next.1, i :: next.2)

/-- The media state enum from `bubblesub/api/media/state.py`. -/
inductive MediaState where
  | Unloaded
  | Loading
  | Loaded
deriving DecidableEq

/-- The `VideoBandWorker` fields touched by `_on_media_state_change`. -/
structure BandWorkerState where
  queue : List Nat
  cache : List (Nat × Frame)
  anything_to_save : Bool
deriving DecidableEq

/-- Externally visible actions of the handler: a `save_cache(name, data)`
call or a `cache_updated` signal emission. -/
inductive BandEffect where
  | saveCache (name : String) (data : List (Nat × Frame))
  | cacheUpdatedSignal
deriving DecidableEq

/-- `VideoBandWorker._cache_name`: `None` without a media path, otherwise
the sanitized path suffixed with `-video-band`. -/
def band_cache_name (sanitize : String → String) (path : Option String) :
    Option String :=
  path.map (fun p => sanitize p ++ "-video-band")

/-- `VideoBandWorker._save_to_cache`: saves the current cache under the
path-derived name, doing nothing when no media path is set. -/
def save_to_cache (sanitize : String → String) (path : Option String)
    (cache : List (Nat × Frame)) : List BandEffect :=
  match band_cache_name sanitize path with
  | some name => [BandEffect.saveCache name cache]
  | none => []

/-- `VideoBandWorker._on_media_state_change`. Entering `Unloaded`: save the
in-memory cache if anything was added, then clear the cache, emit
`cache_updated`, and clear the queue. Entering `Loading`: clear the queue,
reset the dirty flag, seed the cache from the persistent cache (empty on a
miss), and emit `cache_updated`. `Loaded` does nothing. -/
def on_media_state_change (sanitize : String → String)
    (loadCache : String → Option (List (Nat × Frame)))
    (path : Option String) (st : BandWorkerState) (state : MediaState) :
    BandWorkerState × List BandEffect :=
  match state with
  | MediaState.Unloaded =>
    let saveEffs :=
      if st.anything_to_save then save_to_cache sanitize path st.cache else []
    ({ queue := [], cache := [], anything_to_save := st.anything_to_save },
     saveEffs ++ [BandEffect.cacheUpdatedSignal])
  | MediaState.Loading =>
    let seeded :=
      match band_cache_name sanitize path with
      | some name => (loadCache name).getD []
      | none => []
    ({ queue := [], cache := seeded, anything_to_save := false },
     [BandEffect.cacheUpdatedSignal])
  | MediaState.Loaded => (st, [])

end VideoBand

/-- A trivial FFT plan with the correct output size, used to build concrete
contexts in the closed examples below. -/
def zeroPlan : Spectrogram.FftPlan :=
  ⟨fun _ => List.replicate ((1 <<< Spectrogram.DERIVATION_SIZE) + 1) (0, 0),
   fun _ => List.length_replicate _ _⟩

section Theorems

open Spectrogram Video VideoBand

theorem alignLoop_eq_find (pts : Int) (l : List Int) :
    alignLoop pts l = (l.find? (fun t => pts ≤ t)).getD pts := by
  induction l with
  | nil => rfl
  | cons t rest ih =>
    by_cases h : pts ≤ t
    · simp [alignLoop, List.find?_cons, h]
    · simp [alignLoop, List.find?_cons, h, ih]

theorem alignLoop_le_of_sorted (pts : Int) (l : List Int)
    (hs : l.Sorted (· ≤ ·)) (t : Int) (ht : t ∈ l) (hpt : pts ≤ t) :
    alignLoop pts l ≤ t := by
  induction l with
  | nil => cases ht
  | cons a rest ih =>
    rw [List.sorted_cons] at hs
    by_cases h : pts ≤ a
    · have : a ≤ t := by
        rcases List.mem_cons.mp ht with h1 | h1
        · exact h1 ▸ le_refl _
        · exact hs.1 t h1
      simpa [alignLoop, h] using this
    · rcases List.mem_cons.mp ht with h1 | h1
      · exact absurd (h1 ▸ hpt) h
      · simpa [alignLoop, h] using ih hs.2 h1

/-- C9: `align_pts_to_next_frame` returns the first timecode `>= pts` in
list order when one exists (under a non-decreasing list this is the least
timecode `>= pts`), and returns `pts` unchanged when the list is empty or
every timecode is strictly below `pts`. -/
theorem align_pts_to_next_frame_spec (timecodes : List Int) (pts : Int) :
    align_pts_to_next_frame timecodes pts
      = (timecodes.find? (fun t => pts ≤ t)).getD pts ∧
    (timecodes = [] → align_pts_to_next_frame timecodes pts = pts) ∧
    ((∀ t ∈ timecodes, t < pts) → align_pts_to_next_frame timecodes pts = pts) ∧
    (∀ t, timecodes.find? (fun t => pts ≤ t) = some t →
      align_pts_to_next_frame timecodes pts = t ∧ pts ≤ t ∧ t ∈ timecodes) ∧
    (timecodes.Sorted (· ≤ ·) →
      ∀ t ∈ timecodes, pts ≤ t → align_pts_to_next_frame timecodes pts ≤ t) := by
  refine ⟨?_, ?_, ?_, ?_, ?_⟩
  · unfold align_pts_to_next_frame
    by_cases h : timecodes.isEmpty
    · rw [List.isEmpty_iff] at h
      simp [h]
    · simp [h, alignLoop_eq_find]
  · intro h
    simp [align_pts_to_next_frame, h]
  · intro h
    unfold align_pts_to_next_frame
    by_cases he : timecodes.isEmpty
    · simp [he]
    · rw [if_neg he, alignLoop_eq_find]
      have : timecodes.find? (fun t => pts ≤ t) = none := by
        rw [List.find?_eq_none]
        intro x hx
        simpa using not_le.mpr (h x hx)
      simp [this]
  · intro t h
    have hmem := List.find?_some h
    have hfind := List.mem_of_find?_eq_some h
    have hne : ¬ timecodes.isEmpty := by
      intro he
      rw [List.isEmpty_iff] at he
      subst he
      cases h
    refine ⟨?_, by simpa using hmem, hfind⟩
    rw [align_pts_to_next_frame, if_neg hne, alignLoop_eq_find, h]
    rfl
  · intro hs t ht hpt
    unfold align_pts_to_next_frame
    have hne : ¬ timecodes.isEmpty := by
      intro he
      rw [List.isEmpty_iff] at he
      subst he
      cases ht
    rw [if_neg hne]
    exact alignLoop_le_of_sorted pts timecodes hs t ht hpt

/-- Closed instance of C9: with timecodes `[0, 42, 100]` and `pts = 7` the
aligned PTS is the first (and least) timecode `>= 7`, namely `42`. -/
theorem align_pts_to_next_frame_spec_witness :
    align_pts_to_next_frame [0, 42, 100] 7 = 42 :=
  ((align_pts_to_next_frame_spec [0, 42, 100] 7).2.2.2.1 42 (by decide)).1

theorem vrun_cons (st : VideoState) (e : VEvent) (es : List VEvent) :
    vrun st (e :: es) = vrun (vstep st e) es := rfl

theorem vrun_consistent (es : List VEvent) :
    ∀ (st : VideoState) (D : List TimecodesWorkerResult),
      (st.timecodes = [] ∧ st.keyframes = [] ∨
        ∃ r ∈ D, st.currentPath = some r.path ∧
          st.timecodes = r.timecodes ∧ st.keyframes = r.keyframes) →
      ((vrun st es).timecodes = [] ∧ (vrun st es).keyframes = [] ∨
        ∃ r ∈ D ++ completions es, (vrun st es).currentPath = some r.path ∧
          (vrun st es).timecodes = r.timecodes ∧
          (vrun st es).keyframes = r.keyframes) := by
  induction es with
  | nil =>
    intro st D h
    simpa [vrun, completions] using h
  | cons e rest ih =>
    intro st D h
    rw [vrun_cons]
    cases e with
    | load p =>
      have hc : completions (VEvent.load p :: rest) = completions rest := by
        simp [completions]
      rw [hc]
      exact ih (vstep st (VEvent.load p)) D (Or.inl ⟨rfl, rfl⟩)
    | complete result =>
      cases result with
      | none =>
        have hc : completions (VEvent.complete none :: rest) = completions rest := by
          simp [completions]
        rw [hc]
        exact ih st D (by simpa [vstep, got_timecodes] using h)
      | some r =>
        have hc : D ++ completions (VEvent.complete (some r) :: rest)
            = (D ++ [r]) ++ completions rest := by
          simp [completions]
        rw [hc]
        by_cases hp : some r.path = st.currentPath
        · refine ih _ (D ++ [r]) (Or.inr ⟨r, ?_, ?_, ?_, ?_⟩)
          · simp
          · simp only [vstep, got_timecodes, if_pos hp]
            exact hp.symm
          · simp only [vstep, got_timecodes, if_pos hp]
          · simp only [vstep, got_timecodes, if_pos hp]
        · have hst : vstep st (VEvent.complete (some r)) = st := by
            simp [vstep, got_timecodes, hp]
          rw [hst]
          refine ih st (D ++ [r]) ?_
          rcases h with h | ⟨q, hq, hrest⟩
          · exact Or.inl h
          · exact Or.inr ⟨q, List.mem_append_left _ hq, hrest⟩

/-- C3: a timecode-worker completion whose path differs from the currently
loaded media path is discarded unconditionally (state untouched, no
signal); the stored lists are replaced only when the paths agree; and over
any sequence of loads and completions, the lists are either still empty or
come verbatim from a delivered result whose path equals the currently
loaded path, so no result from a previously loaded file is ever merged. -/
theorem got_timecodes_identity_isolation :
    (∀ (st : VideoState) (r : TimecodesWorkerResult),
      some r.path ≠ st.currentPath → got_timecodes st (some r) = (st, false)) ∧
    (∀ (st : VideoState), got_timecodes st none = (st, false)) ∧
    (∀ (st : VideoState) (r : TimecodesWorkerResult),
      some r.path = st.currentPath →
      got_timecodes st (some r)
        = ({ st with timecodes := r.timecodes, keyframes := r.keyframes }, true)) ∧
    (∀ (es : List VEvent) (p0 : Option String),
      ((vrun ⟨p0, [], []⟩ es).timecodes = [] ∧ (vrun ⟨p0, [], []⟩ es).keyframes = []) ∨
      ∃ r ∈ completions es,
        (vrun ⟨p0, [], []⟩ es).currentPath = some r.path ∧
        (vrun ⟨p0, [], []⟩ es).timecodes = r.timecodes ∧
        (vrun ⟨p0, [], []⟩ es).keyframes = r.keyframes) := by
  refine ⟨?_, ?_, ?_, ?_⟩
  · intro st r h
    simp [got_timecodes, h]
  · intro st
    rfl
  · intro st r h
    simp [got_timecodes, h]
  · intro es p0
    have := vrun_consistent es ⟨p0, [], []⟩ [] (Or.inl ⟨rfl, rfl⟩)
    simpa using this

/-- Closed instance of C3: loading `b.mkv` and then receiving a stale
result computed for `a.mkv` leaves the freshly reset state untouched. -/
theorem got_timecodes_identity_isolation_witness :
    got_timecodes ⟨some "b.mkv", [], []⟩ (some ⟨"a.mkv", [5], [5]⟩)
      = (⟨some "b.mkv", [], []⟩, false) :=
  got_timecodes_identity_isolation.1 ⟨some "b.mkv", [], []⟩ ⟨"a.mkv", [5], [5]⟩
    (by decide)

/-- C6: `_do_work` consults the persistent cache first, under the key
derived from the path hash; the decoder is invoked only on a cache miss,
and a successful miss saves the extracted pair back under the same key in
the returned cache state. -/
theorem do_work_cache_first (env : WorkEnv) (path : String) :
    (∀ tc kf, env.cache (cacheName env path) = some (tc, kf) →
      (do_work env path).result = some ⟨path, tc, kf⟩ ∧
      (do_work env path).decoderInvoked = false ∧
      (do_work env path).cache = env.cache) ∧
    (env.cache (cacheName env path) = none → env.fileExists path = true →
      (do_work env path).result
        = some ⟨path, env.trackTimecodes path, env.trackKeyframes path⟩ ∧
      (do_work env path).decoderInvoked = true ∧
      (do_work env path).cache (cacheName env path)
        = some (env.trackTimecodes path, env.trackKeyframes path) ∧
      (∀ k, k ≠ cacheName env path → (do_work env path).cache k = env.cache k)) := by
  constructor
  · intro tc kf h
    simp [do_work, h]
  · intro h1 h2
    refine ⟨?_, ?_, ?_, ?_⟩ <;> simp [do_work, h1, h2]
    intro k hk
    simp [hk]

/-- Closed instance of C6: with an empty cache and an existing file, the
decoder runs and the extracted pair lands in the cache under the hash key. -/
theorem do_work_cache_first_witness :
    (do_work ⟨fun _ => none, fun _ => true, fun _ => [0], fun _ => [0], fun s => s⟩
        "a.mkv").decoderInvoked = true ∧
    (do_work ⟨fun _ => none, fun _ => true, fun _ => [0], fun _ => [0], fun s => s⟩
        "a.mkv").cache "index-a.mkv-video" = some ([0], [0]) := by
  have h := (do_work_cache_first
    ⟨fun _ => none, fun _ => true, fun _ => [0], fun _ => [0], fun s => s⟩
    "a.mkv").2 rfl rfl
  exact ⟨h.2.1, h.2.2.1⟩

/-- C7: when the file does not exist and the cache has no record, `_do_work`
logs an error and produces an absent result without invoking the decoder or
touching the cache, and delivering that absent result through
`_got_timecodes` leaves the (empty) timecode and keyframe lists as they
are. -/
theorem do_work_not_found (env : WorkEnv) (path : String) (st : VideoState) :
    env.cache (cacheName env path) = none → env.fileExists path = false →
    (do_work env path).result = none ∧
    (do_work env path).decoderInvoked = false ∧
    (do_work env path).cache = env.cache ∧
    LogEntry.error "video/timecodes: video file not found" ∈ (do_work env path).log ∧
    got_timecodes st (do_work env path).result = (st, false) := by
  intro h1 h2
  refine ⟨?_, ?_, ?_, ?_, ?_⟩ <;> simp [do_work, h1, h2, got_timecodes]

/-- Closed instance of C7: missing file, cold cache — no result, no decoder
call, the error is logged, and the session state stays empty. -/
theorem do_work_not_found_witness :
    (do_work ⟨fun _ => none, fun _ => false, fun _ => [0], fun _ => [0], fun s => s⟩
        "gone.mkv").result = none ∧
    got_timecodes ⟨some "gone.mkv", [], []⟩
      (do_work ⟨fun _ => none, fun _ => false, fun _ => [0], fun _ => [0], fun s => s⟩
        "gone.mkv").result
      = (⟨some "gone.mkv", [], []⟩, false) := by
  have h := do_work_not_found
    ⟨fun _ => none, fun _ => false, fun _ => [0], fun _ => [0], fun s => s⟩
    "gone.mkv" ⟨some "gone.mkv", [], []⟩ rfl rfl
  exact ⟨h.1, h.2.2.2.2⟩

theorem lookup_isSome_of_mem_keys (m : List (Nat × Frame)) (k : Nat)
    (h : k ∈ m.map Prod.fst) : (m.lookup k).isSome := by
  induction m with
  | nil => simp at h
  | cons a rest ih =>
    obtain ⟨k1, v1⟩ := a
    rw [List.map_cons, List.mem_cons] at h
    by_cases hk : k = k1
    · simp [List.lookup_cons, hk]
    · rcases h with h | h
      · exact absurd h hk
      · simpa [List.lookup_cons, beq_false_of_ne hk] using ih h

theorem dictInsert_keys_nodup (m : List (Nat × Frame)) (k : Nat) (v : Frame)
    (h : (m.map Prod.fst).Nodup) : ((dictInsert m k v).map Prod.fst).Nodup := by
  unfold dictInsert
  by_cases hl : (m.lookup k).isSome
  · rw [if_pos hl]
    have heq : (m.map (fun p => if p.1 = k then (k, v) else p)).map Prod.fst
        = m.map Prod.fst := by
      rw [List.map_map]
      apply List.map_congr_left
      intro p _
      by_cases hp : p.1 = k
      · simp [hp]
      · simp [hp]
    rw [heq]
    exact h
  · rw [if_neg hl]
    have hk : k ∉ m.map Prod.fst := fun hmem => hl (lookup_isSome_of_mem_keys m k hmem)
    simp [List.nodup_append, h, hk]

theorem drain_cache_keys_nodup (g : Nat → Frame) :
    ∀ (q : List Nat) (cache : List (Nat × Frame)),
      (cache.map Prod.fst).Nodup → (((drain g q cache).1).map Prod.fst).Nodup := by
  intro q
  induction q with
  | nil =>
    intro cache h
    exact h
  | cons i rest ih =>
    intro cache h
    simpa [drain] using ih _ (dictInsert_keys_nodup _ _ _ h)

theorem drain_computes_queue (g : Nat → Frame) :
    ∀ (q : List Nat) (cache : List (Nat × Frame)), (drain g q cache).2 = q := by
  intro q
  induction q with
  | nil =>
    intro cache
    rfl
  | cons i rest ih =>
    intro cache
    simp [drain, ih]

/-- C2 counterexample: raising the parse notification twice before the
worker thread runs (an empty in-memory mapping, one known frame) enqueues
frame 0 twice, and draining the queue then decodes frame 0 twice — the
claimed "at most one computation" bound is violated. -/
theorem enqueue_twice_counterexample :
    (drain (fun _ => List.replicate BAND_Y_RESOLUTION (0, 0, 0))
        (on_video_parse [] (on_video_parse [] [] 1) 1) []).2 = [0, 0] ∧
    ¬ ((drain (fun _ => List.replicate BAND_Y_RESOLUTION (0, 0, 0))
        (on_video_parse [] (on_video_parse [] [] 1) 1) []).2.count 0 ≤ 1) := by
  constructor <;> decide

/-- C2 amended: an index already present as a key in the result mapping is
never newly enqueued, and the mapping keeps at most one entry per index (a
later computation overwrites rather than duplicates); but the queue does
not deduplicate pending indices, so an index enqueued twice before it is
computed is computed once per queue occurrence. -/
theorem enqueue_idempotence_amended :
    (∀ (cache : List (Nat × Frame)) (queue : List Nat) (n i : Nat),
      dictHas cache i = true → i ∈ on_video_parse cache queue n → i ∈ queue) ∧
    (∀ (g : Nat → Frame) (q : List Nat) (cache : List (Nat × Frame)),
      (cache.map Prod.fst).Nodup → (((drain g q cache).1).map Prod.fst).Nodup) ∧
    (∀ (g : Nat → Frame) (q : List Nat) (cache : List (Nat × Frame)),
      (drain g q cache).2 = q) := by
  refine ⟨?_, ?_, ?_⟩
  · intro cache queue n i hc hmem
    rcases List.mem_append.mp hmem with h | h
    · exact h
    · rw [List.mem_filter] at h
      simp [hc] at h
  · intro g q cache h
    exact drain_cache_keys_nodup g q cache h
  · intro g q cache
    exact drain_computes_queue g q cache

/-- Closed instance of the amended C2: draining the doubly-enqueued queue
`[0, 0]` still leaves a mapping with no duplicated key, and computes once
per queue occurrence. -/
theorem enqueue_idempotence_amended_witness :
    (((drain (fun _ => List.replicate BAND_Y_RESOLUTION (0, 0, 0)) [0, 0] []).1).map
        Prod.fst).Nodup ∧
    (drain (fun _ => List.replicate BAND_Y_RESOLUTION (0, 0, 0)) [0, 0] []).2 = [0, 0] :=
  ⟨enqueue_idempotence_amended.2.1 _ [0, 0] [] (by simp),
   enqueue_idempotence_amended.2.2 _ [0, 0] []⟩

/-- C5: entering `Unloaded` with a dirty in-memory mapping (and a media
path to derive the record name from) emits the save of the full pre-clear
mapping ahead of the change notification, and only the resulting state has
the mapping cleared — a dirty mapping is never cleared without first being
saved. -/
theorem unload_flush_before_clear (sanitize : String → String)
    (loadCache : String → Option (List (Nat × Frame)))
    (p : String) (st : BandWorkerState) (h : st.anything_to_save = true) :
    on_media_state_change sanitize loadCache (some p) st MediaState.Unloaded
      = ({ queue := [], cache := [], anything_to_save := true },
         [BandEffect.saveCache (sanitize p ++ "-video-band") st.cache,
          BandEffect.cacheUpdatedSignal]) := by
  simp [on_media_state_change, save_to_cache, band_cache_name, h]

/-- Closed instance of C5: a dirty single-entry mapping is saved in full
before the state comes back cleared. -/
theorem unload_flush_before_clear_witness :
    on_media_state_change (fun s => s) (fun _ => none) (some "a.mkv")
        ⟨[3], [(0, [(1, 2, 3)])], true⟩ MediaState.Unloaded
      = (⟨[], [], true⟩,
         [BandEffect.saveCache "a.mkv-video-band" [(0, [(1, 2, 3)])],
          BandEffect.cacheUpdatedSignal]) :=
  unload_flush_before_clear (fun s => s) (fun _ => none) "a.mkv"
    ⟨[3], [(0, [(1, 2, 3)])], true⟩ rfl

theorem npClip_nonneg (x : ℚ) : 0 ≤ npClip x :=
  le_min (by norm_num) (le_max_left 0 x)

theorem npClip_le (x : ℚ) : npClip x ≤ 255 :=
  min_le_left _ _

theorem truncQ_eq_floor (x : ℚ) (h : 0 ≤ x) : truncQ x = ⌊x⌋ := by
  rw [truncQ, Int.tdiv_eq_ediv (Rat.num_nonneg.mpr h) (Int.natCast_nonneg _),
    Rat.floor_def]

theorem npUint8_clip (x : ℚ) :
    npUint8 (npClip x) = (truncQ (npClip x)).toNat ∧ (truncQ (npClip x)).toNat ≤ 255 := by
  have h0 : 0 ≤ npClip x := npClip_nonneg x
  have h255 : npClip x ≤ 255 := npClip_le x
  have hf : truncQ (npClip x) = ⌊npClip x⌋ := truncQ_eq_floor _ h0
  have hge : 0 ≤ ⌊npClip x⌋ := Int.floor_nonneg.mpr h0
  have hle : ⌊npClip x⌋ ≤ 255 := by
    have := Int.floor_le_floor h255
    simpa using this
  constructor
  · rw [npUint8, hf]
    exact Nat.mod_eq_of_lt (by omega)
  · rw [hf]
    omega

/-- C10: when the audio source reports no sample format at all, `work`
neither raises nor runs the transform: it returns the timestamp paired
with an all-zero column of `(1 << DERIVATION_SIZE) + 1` entries, leaving
the input buffer untouched, with a result independent of the FFT plan and
of the compression function. -/
theorem work_no_sample_format (api : AudioSource) (fftw : FftPlan)
    (compress : ℚ × ℚ → ℚ) (input : List ℚ) (pts : Nat)
    (h : api.sample_format = none) :
    work ⟨api, fftw, compress, input⟩ pts
      = Except.ok ((pts, List.replicate ((1 <<< DERIVATION_SIZE) + 1) 0), input) ∧
    (∀ (fftw2 : FftPlan) (compress2 : ℚ × ℚ → ℚ),
      work ⟨api, fftw2, compress2, input⟩ pts
        = work ⟨api, fftw, compress, input⟩ pts) := by
  constructor
  · simp [work, h]
  · intro fftw2 compress2
    simp [work, h]

/-- Closed instance of C10: a formatless source yields the zero column. -/
theorem work_no_sample_format_witness :
    work ⟨⟨48000, none, fun _ _ => []⟩, zeroPlan, fun _ => 0, []⟩ 0
      = Except.ok ((0, List.replicate ((1 <<< DERIVATION_SIZE) + 1) 0), []) :=
  (work_no_sample_format ⟨48000, none, fun _ _ => []⟩ zeroPlan (fun _ => 0) [] 0 rfl).1

/-- C4: two timestamps whose sample offsets align down to the same
`DERIVATION_DISTANCE` boundary make `work` read the same sample window and
produce the same magnitude column (and the same resulting input buffer);
only the echoed timestamp differs. -/
theorem work_window_alignment (ctx : SpectrumProviderContext) (p1 p2 : Nat)
    (h : first_sample ctx.api.sample_rate p1 = first_sample ctx.api.sample_rate p2) :
    samplesRead ctx p1 = samplesRead ctx p2 ∧
    (work ctx p1).map (fun r => (r.1.2, r.2))
      = (work ctx p2).map (fun r => (r.1.2, r.2)) := by
  constructor
  · simp [samplesRead, h]
  · simp only [work]
    rw [h]
    cases hf : ctx.api.sample_format with
    | none => simp [Except.map]
    | some fmt =>
      cases hn : normalizeSamples fmt (npMean (ctx.api.get_samples
          (first_sample ctx.api.sample_rate p2) (2 <<< DERIVATION_SIZE))) with
      | error e => simp [hn, Except.map]
      | ok s2 => simp [hn, Except.map]

/-- Closed instance of C4: at a 48000 Hz source, 0 ms and 1 ms give sample
offsets 0 and 48, both aligned down to sample 0, and the produced columns
and buffers coincide. -/
theorem work_window_alignment_witness :
    (work ⟨⟨48000, some FFMS_FMT_S16, fun _ _ => [[0]]⟩, zeroPlan, fun _ => 0, []⟩ 0).map
        (fun r => (r.1.2, r.2))
      = (work ⟨⟨48000, some FFMS_FMT_S16, fun _ _ => [[0]]⟩, zeroPlan, fun _ => 0, []⟩ 1).map
        (fun r => (r.1.2, r.2)) :=
  (work_window_alignment ⟨⟨48000, some FFMS_FMT_S16, fun _ _ => [[0]]⟩, zeroPlan,
    fun _ => 0, []⟩ 0 1 (by decide)).2

/-- C1 counterexample: a full-scale signed 32-bit sample (&#45;2³¹ =
&#45;2147483648) is divided by 4294967296 = 2³², not by the full-scale
magnitude 2³¹, so it normalizes to magnitude 1/2 rather than 1. -/
theorem normalize_s32_counterexample :
    normalizeSamples FFMS_FMT_S32 [(-2147483648 : ℚ)] = Except.ok [(-(1 / 2) : ℚ)] ∧
    ¬ normalizeSamples FFMS_FMT_S32 [(-2147483648 : ℚ)] = Except.ok [(-1 : ℚ)] := by
  constructor
  · norm_num [normalizeSamples, FFMS_FMT_S16, FFMS_FMT_S32]
  · norm_num [normalizeSamples, FFMS_FMT_S16, FFMS_FMT_S32]

/-- C1 amended: signed 16-bit samples are divided by 32768 (the full-scale
16-bit magnitude, so a full-scale 16-bit sample normalizes to magnitude 1
and the result stays within [-1, 1]); signed 32-bit samples are divided by
4294967296 = 2³² (twice the full-scale magnitude, so a full-scale 32-bit
sample normalizes to magnitude 1/2, still within [-1, 1]); float and
double pass through; any other format makes the work function raise an
error instead of producing a column. -/
theorem normalize_spec (fmt : Nat) (samples : List ℚ)
    (ctx : SpectrumProviderContext) (pts : Nat) :
    (normalizeSamples FFMS_FMT_S16 samples
      = Except.ok (samples.map (fun x => x / 32768))) ∧
    (normalizeSamples FFMS_FMT_S32 samples
      = Except.ok (samples.map (fun x => x / 4294967296))) ∧
    (normalizeSamples FFMS_FMT_FLT samples = Except.ok samples) ∧
    (normalizeSamples FFMS_FMT_DBL samples = Except.ok samples) ∧
    ((∀ x ∈ samples, |x| ≤ 32768) →
      ∀ y ∈ samples.map (fun x => x / 32768), |y| ≤ 1) ∧
    ((∀ x ∈ samples, |x| ≤ 2147483648) →
      ∀ y ∈ samples.map (fun x => x / 4294967296), |y| ≤ 1 / 2) ∧
    (fmt ≠ FFMS_FMT_S16 → fmt ≠ FFMS_FMT_S32 → fmt ≠ FFMS_FMT_FLT → fmt ≠ FFMS_FMT_DBL →
      normalizeSamples fmt samples
        = Except.error ("Unknown sample format: " ++ toString fmt) ∧
      (ctx.api.sample_format = some fmt →
        work ctx pts = Except.error ("Unknown sample format: " ++ toString fmt))) := by
  refine ⟨?_, ?_, ?_, ?_, ?_, ?_, ?_⟩
  · norm_num [normalizeSamples, FFMS_FMT_S16]
  · norm_num [normalizeSamples, FFMS_FMT_S16, FFMS_FMT_S32]
  · norm_num [normalizeSamples, FFMS_FMT_S16, FFMS_FMT_S32, FFMS_FMT_FLT, FFMS_FMT_DBL]
  · norm_num [normalizeSamples, FFMS_FMT_S16, FFMS_FMT_S32, FFMS_FMT_FLT, FFMS_FMT_DBL]
  · intro hb y hy
    rw [List.mem_map] at hy
    obtain ⟨x, hx, rfl⟩ := hy
    rw [abs_div]
    rw [abs_of_pos (by norm_num : (0 : ℚ) < 32768)]
    rw [div_le_one (by norm_num : (0 : ℚ) < 32768)]
    exact hb x hx
  · intro hb y hy
    rw [List.mem_map] at hy
    obtain ⟨x, hx, rfl⟩ := hy
    rw [abs_div]
    rw [abs_of_pos (by norm_num : (0 : ℚ) < 4294967296)]
    rw [div_le_iff₀ (by norm_num : (0 : ℚ) < 4294967296)]
    calc |x| ≤ 2147483648 := hb x hx
    _ = 1 / 2 * 4294967296 := by norm_num
  · intro h16 h32 hflt hdbl
    have hn : ∀ s : List ℚ, normalizeSamples fmt s
        = Except.error ("Unknown sample format: " ++ toString fmt) := by
      intro s
      simp [normalizeSamples, h16, h32, hflt, hdbl]
    refine ⟨hn samples, ?_⟩
    intro hfmt
    simp only [work, hfmt, hn]

/-- Closed instance of the amended C1: an unrecognized format code (5)
makes `work` raise, and a half-scale 16-bit sample normalizes to 1/2. -/
theorem normalize_spec_witness :
    work ⟨⟨48000, some 5, fun _ _ => [[0]]⟩, zeroPlan, fun _ => 0, []⟩ 0
      = Except.error ("Unknown sample format: " ++ toString 5) ∧
    normalizeSamples FFMS_FMT_S16 [(16384 : ℚ)] = Except.ok [(1 / 2 : ℚ)] := by
  have h := normalize_spec 5 [(16384 : ℚ)]
    ⟨⟨48000, some 5, fun _ _ => [[0]]⟩, zeroPlan, fun _ => 0, []⟩ 0
  refine ⟨(h.2.2.2.2.2.2 (by decide) (by decide) (by decide) (by decide)).2 rfl, ?_⟩
  rw [h.1]
  norm_num

/-- C8: on any recognized sample format, `work` succeeds with a column of
exactly `(1 << DERIVATION_SIZE) + 1` entries, each at most 255, equal to
the log-compressed magnitudes multiplied by 255, clipped to [0, 255],
reversed, and cast to bytes — and because the clip precedes the cast, the
byte cast is plain truncation with no wrap-around. -/
theorem work_column_shape (ctx : SpectrumProviderContext) (pts : Nat) (fmt : Nat)
    (hf : ctx.api.sample_format = some fmt)
    (hrec : fmt = FFMS_FMT_S16 ∨ fmt = FFMS_FMT_S32 ∨ fmt = FFMS_FMT_FLT ∨
      fmt = FFMS_FMT_DBL) :
    ∃ col buf, work ctx pts = Except.ok ((pts, col), buf) ∧
      col.length = (1 <<< DERIVATION_SIZE) + 1 ∧
      (∀ b ∈ col, b ≤ 255) ∧
      col = (((ctx.fftw.apply buf).map ctx.compress).map
        (fun x => npClip (x * 255))).reverse.map (fun x => (truncQ x).toNat) := by
  obtain ⟨s2, hn⟩ : ∃ s2, normalizeSamples fmt (npMean (ctx.api.get_samples
      (first_sample ctx.api.sample_rate pts) (2 <<< DERIVATION_SIZE)))
      = Except.ok s2 := by
    rcases hrec with h | h | h | h <;> subst h <;> exact ⟨_, rfl⟩
  refine ⟨((((ctx.fftw.apply (writeSlice ctx.input s2)).map ctx.compress).map
      (fun x => x * 255)).map npClip).reverse.map npUint8,
    writeSlice ctx.input s2, ?_, ?_, ?_, ?_⟩
  · simp only [work, hf, hn]
  · simp [List.length_map, List.length_reverse, ctx.fftw.output_len]
  · intro b hb
    rw [List.mem_map] at hb
    obtain ⟨x, hx, rfl⟩ := hb
    rw [List.mem_reverse, List.mem_map] at hx
    obtain ⟨y, hy, rfl⟩ := hx
    rw [(npUint8_clip y).1]
    exact (npUint8_clip y).2
  · have h1 : (((ctx.fftw.apply (writeSlice ctx.input s2)).map ctx.compress).map
        (fun x => x * 255)).map npClip
        = ((ctx.fftw.apply (writeSlice ctx.input s2)).map ctx.compress).map
          (fun x => npClip (x * 255)) := by
      rw [List.map_map]
      rfl
    rw [h1]
    apply List.map_congr_left
    intro x hx
    rw [List.mem_reverse, List.mem_map] at hx
    obtain ⟨y, hy, rfl⟩ := hx
    exact (npUint8_clip _).1

/-- Closed instance of C8: a concrete signed-16-bit context yields an
in-range column of the fixed length. -/
theorem work_column_shape_witness :
    ∃ col buf,
      work ⟨⟨48000, some FFMS_FMT_S16, fun _ _ => [[0]]⟩, zeroPlan, fun _ => 0, []⟩ 0
        = Except.ok ((0, col), buf) ∧
      col.length = (1 <<< DERIVATION_SIZE) + 1 ∧ (∀ b ∈ col, b ≤ 255) := by
  obtain ⟨col, buf, h1, h2, h3, _⟩ := work_column_shape
    ⟨⟨48000, some FFMS_FMT_S16, fun _ _ => [[0]]⟩, zeroPlan, fun _ => 0, []⟩ 0
    FFMS_FMT_S16 rfl (Or.inl rfl)
  exact ⟨col, buf, h1, h2, h3⟩

end Theorems
